import Mathlib

set_option maxRecDepth 8192

/-!
Verification development for the OpenSpace parallel-connection protocol layer
and two renderable components.

Sources embedded here:
  - src/include/openspace/network/parallelconnection.h (enums, message structs,
    connection interface). The bodies of the connection, the wire codec and the
    hostship arbitration are declared there but their implementation is not part
    of the available sources; those parts are modelled from the specification
    (spec.md sections 4, 6, 7) and each such definition is marked
    `Modelled from the spec`.
  - src/modules/space/rendering/renderableearthmoonline.cpp (constructor wiring
    of property change handlers).
  - src/modules/base/rendering/renderablemodelnew.cpp (texture grouping pass of
    `loadModel` and `TextureDimensions::operator<`).
-/

namespace OpenSpace

/-- One octet of a `std::vector<char>` buffer (chars are 8 bit on the supported
platforms). -/
abbrev Byte := Fin 256

/-- `ParallelConnection::Status` (parallelconnection.h lines 39-45): the role of
the local node in the session, underlying type `uint32_t`, values 0 to 4. -/
inductive Status : Type
  | Disconnected
  | Connecting
  | ClientWithoutHost
  | ClientWithHost
  | Host
deriving DecidableEq, Repr

/-- Underlying `uint32_t` value of each `Status` enumerator. -/
def Status.toTag : Status → Nat
  | .Disconnected => 0
  | .Connecting => 1
  | .ClientWithoutHost => 2
  | .ClientWithHost => 3
  | .Host => 4

/-- `ParallelConnection::MessageType` (parallelconnection.h lines 47-54): the five
protocol message tags. The sixth enumerator of the C++ enum, `NConnections = 5`,
is the count sentinel of the enumeration (the number of message kinds), not a
wire tag; it is embedded separately as `nConnectionsTag`. -/
inductive MessageType : Type
  | Authentication
  | Data
  | ConnectionStatus
  | HostshipRequest
  | HostshipResignation
deriving DecidableEq, Repr

/-- Underlying `uint32_t` value of each `MessageType` enumerator
(`Authentication = 0` and the rest consecutive). -/
def MessageType.toTag : MessageType → Nat
  | .Authentication => 0
  | .Data => 1
  | .ConnectionStatus => 2
  | .HostshipRequest => 3
  | .HostshipResignation => 4

/-- The sentinel enumerator `NConnections` of `ParallelConnection::MessageType`:
its underlying value, 5, the number of message kinds. -/
def nConnectionsTag : Nat := 5

/-- Modelled from the spec: the decoder side validation of a received type tag
(spec section 4.1, "validates the type tag is one of the five known values");
the implementation of the codec is declared but not present in the sources.
Maps an incoming `uint32_t` tag value back to a `MessageType`, rejecting
everything outside the five known values. -/
def MessageType.fromTag (t : Nat) : Option MessageType :=
  if t = 0 then some .Authentication
  else if t = 1 then some .Data
  else if t = 2 then some .ConnectionStatus
  else if t = 3 then some .HostshipRequest
  else if t = 4 then some .HostshipResignation
  else none

/-- `ParallelConnection::Message` (parallelconnection.h lines 56-65): the generic
protocol envelope, a tag and an opaque byte payload. -/
structure Message where
  type : MessageType
  content : List Byte
deriving DecidableEq, Repr

/-- The raw in-memory view of a `ParallelConnection::Message` object before the
tag has been validated: the `type` member is just a `uint32_t` bit pattern. Used
to model default construction, where `Message() {}` leaves `type` uninitialized. -/
structure RawMessage where
  typeTag : Nat
  content : List Byte
deriving DecidableEq, Repr

/-- The raw in-memory view of a `ParallelConnection::DataMessage`
(parallelconnection.h lines 67-75): `type` is a `datamessagestructures::Type`
value, an application defined sub tag, modelled by its underlying integer. -/
structure RawDataMessage where
  typeTag : Nat
  content : List Byte
deriving DecidableEq, Repr

/-- Model of `Message() {};` (parallelconnection.h line 57): the constructor body
is empty and has no member initializers, so the trivially constructible `type`
member keeps an indeterminate `uint32_t` bit pattern while `content` is default
constructed to the empty vector. The indeterminate bit pattern is modelled by
the parameter `t`: a default constructed object may carry any such value. -/
def defaultMessage (t : Nat) : RawMessage :=
  { typeTag := t % 2 ^ 32, content := [] }

/-- Model of `DataMessage() {};` (parallelconnection.h line 68): same shape as
`defaultMessage`, the `type` member is left uninitialized and `content` is the
empty vector. -/
def defaultDataMessage (t : Nat) : RawDataMessage :=
  { typeTag := t % 2 ^ 32, content := [] }

/-- Modelled from the spec: serialization of one `uint32_t` field of the wire
frame (spec section 6, all multi byte fields in a single fixed byte order;
little endian is the fixed order chosen by this model). The codec implementation
behind `sendMessage` and `receiveMessage` is not part of the available sources. -/
def u32Bytes (n : Nat) : List Byte :=
  [⟨n % 256, by omega⟩,
   ⟨n / 256 % 256, by omega⟩,
   ⟨n / 65536 % 256, by omega⟩,
   ⟨n / 16777216 % 256, by omega⟩]

/-- Modelled from the spec: deserialization of one `uint32_t` field from four
bytes, inverse byte order of `u32Bytes`. -/
def u32Value (bs : List Byte) : Nat :=
  match bs with
  | [b0, b1, b2, b3] => b0.val + 256 * b1.val + 65536 * b2.val + 16777216 * b3.val
  | _ => 0

/-- Modelled from the spec: `encode(Message) -> bytes` (spec section 4.1 and 6).
A frame is the 4 byte type tag, then the 4 byte content length, then the content
bytes. -/
def encode (m : Message) : List Byte :=
  u32Bytes m.type.toTag ++ u32Bytes m.content.length ++ m.content

/-- Modelled from the spec: the result of one decode attempt
(spec section 4.1, `decode(stream) -> Message | Incomplete | ProtocolError`).
`Decoded` also returns the bytes remaining after the consumed frame. -/
inductive DecodeResult : Type
  | Incomplete
  | ProtocolError
  | Decoded (m : Message) (rest : List Byte)
deriving DecidableEq, Repr

/-- Modelled from the spec: `decode` (spec sections 4.1, 6 and 7). Reads the
8 header bytes (returning `Incomplete` when fewer are buffered), validates the
type tag against the five known values, rejects a declared content length above
the configured maximum `maxLen` before any content is read, then reads exactly
`length` bytes of content (returning `Incomplete` until they are all buffered). -/
def decode (maxLen : Nat) (buf : List Byte) : DecodeResult :=
  if buf.length < 8 then .Incomplete
  else
    let tag := u32Value (buf.take 4)
    let len := u32Value ((buf.drop 4).take 4)
    match MessageType.fromTag tag with
    | none => .ProtocolError
    | some t =>
      if maxLen < len then .ProtocolError
      else if buf.length < 8 + len then .Incomplete
      else .Decoded ⟨t, (buf.drop 8).take len⟩ (buf.drop (8 + len))

/-- Modelled from the spec: the observable state of one `ParallelConnection`
(parallelconnection.h lines 77-88). The class owns one TCP socket; we track
whether the socket is open (`connected`), the configured maximum content length
of the codec, the buffered inbound bytes and the bytes written so far. The
member function bodies are not part of the available sources. -/
structure Connection where
  connected : Bool
  maxLen : Nat
  recvBuf : List Byte
  sentBytes : List Byte
deriving DecidableEq, Repr

/-- Modelled from the spec: `ParallelConnection::disconnect()` (spec section 4.2,
"closes the socket; idempotent; after this call all further sends fail and all
further receives return nothing"). -/
def disconnect (c : Connection) : Connection :=
  { c with connected := false }

/-- Modelled from the spec: `ParallelConnection::isConnectedOrConnecting()`
(spec section 4.2), reports whether the socket can still carry traffic. -/
def isConnectedOrConnecting (c : Connection) : Bool :=
  c.connected

/-- Modelled from the spec: `ParallelConnection::sendMessage` (spec sections 4.2
and 7). Serializes via the wire codec and writes the frame; a socket level
failure during the write (`transportOk = false`, a `TransportError`) is fatal:
the send reports failure and the connection is closed. A send on a closed
connection fails without side effects. -/
def sendMessage (c : Connection) (m : Message) (transportOk : Bool) :
    Bool × Connection :=
  if c.connected then
    if transportOk then (true, { c with sentBytes := c.sentBytes ++ encode m })
    else (false, disconnect c)
  else (false, c)

/-- Modelled from the spec: `ParallelConnection::sendDataMessage` (spec
section 4.2): wraps the data message as the content of an outer message of type
`Data`, the content being the 4 byte sub tag followed by the sub payload
(spec section 6), and delegates to `sendMessage`, dropping the result. -/
def sendDataMessage (c : Connection) (d : RawDataMessage) (transportOk : Bool) :
    Connection :=
  (sendMessage c ⟨.Data, u32Bytes d.typeTag ++ d.content⟩ transportOk).2

/-- Modelled from the spec: `ParallelConnection::receiveMessage` (spec sections
4.2 and 7). Attempts one decode cycle on the buffered inbound bytes: returns
nothing when no complete message is available, consumes the frame on success,
and on a `ProtocolError` closes the connection (fatal, spec section 7). A
receive on a closed connection returns nothing. -/
def receiveMessage (c : Connection) : Option Message × Connection :=
  if c.connected then
    match decode c.maxLen c.recvBuf with
    | .Incomplete => (none, c)
    | .ProtocolError => (none, disconnect c)
    | .Decoded m rest => (some m, { c with recvBuf := rest })
  else (none, c)

/-- Modelled from the spec: the success flag of an `Authentication` response and
the grant flag of a `HostshipRequest` response, carried in the first content
byte (the exact payload layout is unspecified in the available material; a
nonzero-is-one convention on the first byte is the choice of this model). -/
def authSuccess (cb : List Byte) : Bool :=
  cb.getD 0 0 == 1

/-- Modelled from the spec: whether a control message payload reports that some
peer currently holds hostship, carried in the second content byte (layout
choice of this model, as for `authSuccess`). -/
def hostPresent (cb : List Byte) : Bool :=
  cb.getD 1 0 == 1

/-- Modelled from the spec: the session state machine of one node
(spec section 4.3). Transitions are driven exclusively by received control
messages; `Data` traffic never changes the state; a control message that is
illegal for the current state is discarded (state kept). From `Disconnected`,
only a successful `Authentication` exchange reaches `ClientWithoutHost` or
`ClientWithHost` (spec section 8, state machine legality). -/
def handleMessage (s : Status) (m : Message) : Status :=
  match s, m.type with
  | .Disconnected, .Authentication =>
    if authSuccess m.content then
      if hostPresent m.content then .ClientWithHost else .ClientWithoutHost
    else .Disconnected
  | .Disconnected, _ => .Disconnected
  | .Connecting, .Authentication =>
    if authSuccess m.content then
      if hostPresent m.content then .ClientWithHost else .ClientWithoutHost
    else .Disconnected
  | .Connecting, _ => .Connecting
  | .ClientWithoutHost, .ConnectionStatus =>
    if hostPresent m.content then .ClientWithHost else .ClientWithoutHost
  | .ClientWithoutHost, .HostshipRequest =>
    if authSuccess m.content then .Host else .ClientWithoutHost
  | .ClientWithoutHost, _ => .ClientWithoutHost
  | .ClientWithHost, .ConnectionStatus =>
    if hostPresent m.content then .ClientWithHost else .ClientWithoutHost
  | .ClientWithHost, .HostshipRequest =>
    if authSuccess m.content then .Host else .ClientWithHost
  | .ClientWithHost, _ => .ClientWithHost
  | .Host, .ConnectionStatus =>
    if hostPresent m.content then .ClientWithHost else .Host
  | .Host, _ => .Host

/-- Modelled from the spec: the local view of a session of `N` nodes, one
`Status` per node (spec sections 4.3 and 4.4). -/
abbrev SessionState (N : Nat) := Fin N → Status

/-- Modelled from the spec: a fresh session, every node still disconnected. -/
def initSession (N : Nat) : SessionState N :=
  fun _ => .Disconnected

/-- Modelled from the spec: node `i` opens its socket (`Disconnected` to
`Connecting`, spec section 4.3). -/
def connectNode {N : Nat} (i : Fin N) (s : SessionState N) : SessionState N :=
  if s i = .Disconnected then fun j => if j = i then .Connecting else s j
  else s

/-- Modelled from the spec: the `Authentication` exchange of node `i` is
confirmed; the node becomes a session member, with or without a known host
(spec section 4.3). -/
def authNode {N : Nat} (i : Fin N) (withHost : Bool) (s : SessionState N) :
    SessionState N :=
  if s i = .Connecting then
    fun j => if j = i then (if withHost then .ClientWithHost else .ClientWithoutHost)
             else s j
  else s

/-- Modelled from the spec: the rendezvous processes one `requestHostship()`
call of node `i` (spec section 4.4). Valid only from `ClientWithoutHost` or
`ClientWithHost`; the rendezvous is centralized and never grants two concurrent
requests, so one grant is processed atomically: the requester becomes `Host`
and every other session member (including the previous host) is informed via
`ConnectionStatus` and becomes `ClientWithHost`. -/
def requestGrant {N : Nat} (i : Fin N) (s : SessionState N) : SessionState N :=
  if s i = .ClientWithoutHost ∨ s i = .ClientWithHost then
    fun j =>
      if j = i then .Host
      else if s j = .ClientWithoutHost ∨ s j = .ClientWithHost ∨ s j = .Host then
        .ClientWithHost
      else s j
  else s

/-- Modelled from the spec: node `i` calls `resignHostship()` (spec
section 4.4). Valid only from `Host`; the resigner transitions to
`ClientWithoutHost` immediately and the other members learn that no host
remains. -/
def resignHostship {N : Nat} (i : Fin N) (s : SessionState N) : SessionState N :=
  if s i = .Host then
    fun j =>
      if j = i then .ClientWithoutHost
      else if s j = .ClientWithHost then .ClientWithoutHost
      else s j
  else s

/-- Modelled from the spec: node `i` disconnects (local `disconnect()` or
connection failure); its status resets to `Disconnected` (spec section 3). -/
def dropNode {N : Nat} (i : Fin N) (s : SessionState N) : SessionState N :=
  fun j => if j = i then .Disconnected else s j

/-- Modelled from the spec: one atomic evolution step of the session. -/
inductive SessionStep (N : Nat) : SessionState N → SessionState N → Prop
  | connect (i : Fin N) (s : SessionState N) : SessionStep N s (connectNode i s)
  | auth (i : Fin N) (b : Bool) (s : SessionState N) : SessionStep N s (authNode i b s)
  | request (i : Fin N) (s : SessionState N) : SessionStep N s (requestGrant i s)
  | resign (i : Fin N) (s : SessionState N) : SessionStep N s (resignHostship i s)
  | drop (i : Fin N) (s : SessionState N) : SessionStep N s (dropNode i s)

/-- Modelled from the spec: the states a session of `N` nodes can reach from a
fresh start. -/
def SessionReachable (N : Nat) (s : SessionState N) : Prop :=
  Relation.ReflTransGen (SessionStep N) (initSession N) s

/-- The number of nodes currently believing they are `Host`. -/
def hostCount {N : Nat} (s : SessionState N) : Nat :=
  (Finset.univ.filter fun i => s i = Status.Host).card

/-- The session state in which node `i` is `Host` and every other node is
`ClientWithHost`. -/
def postState {N : Nat} (i : Fin N) : SessionState N :=
  fun j => if j = i then .Host else .ClientWithHost

/-- The two properties of `RenderableEarthMoonLine`
(renderableearthmoonline.cpp lines 44-55): identifiers `LineWidth` and
`LineColor` (the latter stored in the `_currentLineColor` member). -/
inductive EMLPropId : Type
  | lineWidth
  | lineColor
deriving DecidableEq, Repr

/-- The two change handlers registered by the `RenderableEarthMoonLine`
constructor: the `drawnTank` lambda (lines 107-220, registered at lines
223-226) and the lambda copying `_currentLineColor` into `_lineColor`
(registered at lines 229-232). -/
inductive EMLHandler : Type
  | drawnTank
  | copyCurrentLineColor
deriving DecidableEq, Repr

/-- The handler registrations performed by the constructor, in program order
(renderableearthmoonline.cpp lines 222-232): both `onChange` calls are made on
`_lineWidth`; `_currentLineColor` is added as a property (line 228) but no
handler is attached to it. -/
def emlRegistrations : List (EMLPropId × EMLHandler) :=
  [(.lineWidth, .drawnTank), (.lineWidth, .copyCurrentLineColor)]

/-- The handlers attached to property `p`, in registration order. -/
def emlHandlersFor (p : EMLPropId) : List EMLHandler :=
  (emlRegistrations.filter fun r => r.1 == p).map fun r => r.2

/-- The observable state of a `RenderableEarthMoonLine`: the stored values of
the two properties, the rendered line color `_lineColor` (a member of the
`RenderableLines` base), and the line width the `drawnTank` line set was last
rebuilt with (`none` before any rebuild). Width and color values are abstract
(`W`, `C`). -/
structure EMLState (W C : Type) where
  _lineWidth : W
  _currentLineColor : C
  _lineColor : C
  tankBuiltWidth : Option W

/-- Effect of each handler on the state: `drawnTank` resets and rebuilds the
line set using the current `_lineWidth` (lines 107-220); the second handler
assigns `_lineColor = _currentLineColor` (line 230). -/
def runEMLHandler {W C : Type} : EMLHandler → EMLState W C → EMLState W C
  | .drawnTank, s => { s with tankBuiltWidth := some s._lineWidth }
  | .copyCurrentLineColor, s => { s with _lineColor := s._currentLineColor }

/-- Run every handler registered for property `p`, in registration order. -/
def fireEMLHandlers {W C : Type} (p : EMLPropId) (s : EMLState W C) :
    EMLState W C :=
  (emlHandlersFor p).foldl (fun st h => runEMLHandler h st) s

/-- Property assignment semantics of the property system: setting the
`LineWidth` property stores the value and then invokes the change handlers
attached to `_lineWidth`. -/
def setLineWidthProp {W C : Type} (w : W) (s : EMLState W C) : EMLState W C :=
  fireEMLHandlers .lineWidth { s with _lineWidth := w }

/-- Setting the `LineColor` property stores the value in `_currentLineColor`
and then invokes the change handlers attached to `_currentLineColor`. -/
def setLineColorProp {W C : Type} (c : C) (s : EMLState W C) : EMLState W C :=
  fireEMLHandlers .lineColor { s with _currentLineColor := c }

/-- `TextureDimensions` (renderablemodelnew.cpp lines 123-167): width, height,
depth (`_dimensions`) and format of one loaded texture; the format enumerator
is embedded by its underlying integer value. -/
structure TextureDimensions where
  _width : Nat
  _height : Nat
  _dimensions : Nat
  _format : Nat
deriving DecidableEq, Repr

/-- `TextureDimensions::operator<` (renderablemodelnew.cpp lines 133-161):
lexicographic comparison of width, height, depth, format, written exactly as
the nested early-return chain of the source. -/
def tdLt (a b : TextureDimensions) : Bool :=
  if a._width < b._width then true
  else if a._width = b._width then
    if a._height < b._height then true
    else if a._height = b._height then
      if a._dimensions < b._dimensions then true
      else if a._dimensions = b._dimensions then
        if a._format < b._format then true
        else false
      else false
    else false
  else false

/-- The key equivalence induced by `operator<` in
`std::map<TextureDimensions, ...>`: two keys address the same entry iff
neither compares less than the other. -/
def tdEquiv (a b : TextureDimensions) : Bool :=
  !(tdLt a b) && !(tdLt b a)

/-- `std::max(texture->width(), texture->height())` (renderablemodelnew.cpp
line 408). -/
def maxDimension (d : TextureDimensions) : Nat :=
  max d._width d._height

/-- The contents of `std::map<TextureDimensions,
std::vector<std::vector<std::size_t>>> oldTextures` (renderablemodelnew.cpp
line 391): per dimension key, the list of index groups. -/
abbrev GroupMap := List (TextureDimensions × List (List Nat))

/-- The per-texture body acting on the group list of one map entry
(renderablemodelnew.cpp lines 407-416): take the current (last) index vector;
if it is non-empty and adding one more index would push the concatenated
texture past 4096 pixels (`(size + 1) * maxDim > 4096`), emplace a fresh index
vector; then push the index onto the last vector. -/
def pushIndex (maxDim i : Nat) : List (List Nat) → List (List Nat)
  | [] => [[i]]
  | [g] =>
    if 0 < g.length ∧ 4096 < (g.length + 1) * maxDim then [g, [i]]
    else [g ++ [i]]
  | g :: g2 :: gs => g :: pushIndex maxDim i (g2 :: gs)

/-- One iteration of the grouping loop (renderablemodelnew.cpp lines 394-417):
look the dimension key up in the map, creating the entry with one empty group
when absent (lines 399-404), then run `pushIndex` on the group list of that
entry. The association list keeps entries in first-occurrence order while
`std::map` keeps them sorted by `operator<`; the contents recorded per key are
the same, since `find`, `operator[]` and `.back()` address a single entry
through the key equivalence `tdEquiv`, and nothing in the grouping pass
depends on the entry order. -/
def insertTexture (d : TextureDimensions) (i : Nat) : GroupMap → GroupMap
  | [] => [(d, pushIndex (maxDimension d) i [[]])]
  | e :: es =>
    if tdEquiv e.1 d then (e.1, pushIndex (maxDimension d) i e.2) :: es
    else e :: insertTexture d i es

/-- The grouping loop of `RenderableModelNew::loadModel` (renderablemodelnew.cpp
lines 394-417), iterating `i` over the positions of the loaded textures:
`k` is the index of the first texture of `ds` within the full texture list. -/
def groupTexturesAux (k : Nat) : List TextureDimensions → GroupMap → GroupMap
  | [], m => m
  | d :: ds, m => groupTexturesAux (k + 1) ds (insertTexture d k m)

/-- The texture-grouping pass of `RenderableModelNew::loadModel`, applied to
the dimensions of the loaded textures in order. -/
def groupTextures (ts : List TextureDimensions) : GroupMap :=
  groupTexturesAux 0 ts []

/-- All indices recorded in the map, across every entry and every group. -/
def flattenGroups (m : GroupMap) : List Nat :=
  (m.map fun e => e.2.flatten).flatten

/-- The per-entry well-formedness of the grouping map over the texture list
`ts`: every index in a group belongs to a texture with exactly the dimensions
of the entry key, and every group of two or more textures fits the 4096 pixel
limit. -/
def GroupsOk (ts : List TextureDimensions) (m : GroupMap) : Prop :=
  ∀ e ∈ m, ∀ g ∈ e.2,
    (∀ j ∈ g, ts.get? j = some e.1)
    ∧ (2 ≤ g.length → g.length * maxDimension e.1 ≤ 4096)

end OpenSpace

namespace OpenSpace

theorem u32Value_u32Bytes (n : Nat) : u32Value (u32Bytes n) = n % 2 ^ 32 := by
  simp only [u32Bytes, u32Value]
  omega

theorem u32Bytes_length (n : Nat) : (u32Bytes n).length = 4 := rfl

theorem fromTag_toTag (t : MessageType) : MessageType.fromTag t.toTag = some t := by
  cases t <;> rfl

/-- Core round-trip lemma: decoding an encoded message yields the message back,
provided the content length fits the length field and the configured maximum. -/
theorem decode_encode (maxLen : Nat) (m : Message)
    (hmax : m.content.length ≤ maxLen) (hfit : m.content.length < 2 ^ 32) :
    decode maxLen (encode m) = .Decoded m [] := by
  have hlen4 : (u32Bytes m.type.toTag).length = 4 := rfl
  have hlen4b : (u32Bytes m.content.length).length = 4 := rfl
  have hbuf : encode m = u32Bytes m.type.toTag ++ (u32Bytes m.content.length ++ m.content) := by
    simp [encode]
  have hlen : (encode m).length = 8 + m.content.length := by
    simp [encode, u32Bytes]
    omega
  unfold decode
  rw [hlen]
  simp only [show ¬ (8 + m.content.length < 8) by omega, if_false]
  have htake4 : (encode m).take 4 = u32Bytes m.type.toTag := by
    rw [hbuf]
    exact List.take_left' hlen4
  have hdrop4 : (encode m).drop 4 = u32Bytes m.content.length ++ m.content := by
    rw [hbuf]
    exact List.drop_left' hlen4
  have htake4b : ((encode m).drop 4).take 4 = u32Bytes m.content.length := by
    rw [hdrop4]
    exact List.take_left' hlen4b
  rw [htake4, htake4b, u32Value_u32Bytes, u32Value_u32Bytes]
  have htagfit : m.type.toTag % 2 ^ 32 = m.type.toTag := by
    cases m.type <;> rfl
  have hlenfit : m.content.length % 2 ^ 32 = m.content.length := Nat.mod_eq_of_lt hfit
  rw [htagfit, hlenfit, fromTag_toTag]
  simp only [show ¬ (maxLen < m.content.length) by omega, if_false,
    show ¬ (8 + m.content.length < 8 + m.content.length) by omega, if_false]
  have hdrop8 : (encode m).drop 8 = m.content := by
    have : encode m = (u32Bytes m.type.toTag ++ u32Bytes m.content.length) ++ m.content := by
      simp [encode]
    rw [this]
    exact List.drop_left' (by simp [u32Bytes])
  have hdropAll : (encode m).drop (8 + m.content.length) = [] := by
    apply List.drop_eq_nil_of_le
    omega
  rw [hdrop8, hdropAll, List.take_length]

/-- Decoding any strict prefix of a well-formed frame yields `Incomplete`,
provided the declared content length passes the configured maximum. -/
theorem decode_take_incomplete (maxLen : Nat) (m : Message) (k : Nat)
    (hmax : m.content.length ≤ maxLen) (hfit : m.content.length < 2 ^ 32)
    (hk : k < (encode m).length) :
    decode maxLen ((encode m).take k) = .Incomplete := by
  have hlen4 : (u32Bytes m.type.toTag).length = 4 := rfl
  have hlen4b : (u32Bytes m.content.length).length = 4 := rfl
  have hlen : (encode m).length = 8 + m.content.length := by
    simp [encode, u32Bytes]
    omega
  have hklen : ((encode m).take k).length = k := by
    rw [List.length_take]
    omega
  by_cases hk8 : k < 8
  · unfold decode
    rw [hklen]
    simp [hk8]
  · push_neg at hk8
    unfold decode
    rw [hklen]
    simp only [show ¬ (k < 8) by omega, if_false]
    have htake4 : ((encode m).take k).take 4 = (encode m).take 4 := by
      rw [List.take_take]
      congr 1
      omega
    have hdrop4 : (((encode m).take k).drop 4).take 4 = ((encode m).drop 4).take 4 := by
      rw [List.drop_take]
      rw [List.take_take]
      congr 1
      omega
    have hbuf : encode m = u32Bytes m.type.toTag ++ (u32Bytes m.content.length ++ m.content) := by
      simp [encode]
    have htag : (encode m).take 4 = u32Bytes m.type.toTag := by
      rw [hbuf]
      exact List.take_left' hlen4
    have hlenfield : ((encode m).drop 4).take 4 = u32Bytes m.content.length := by
      rw [hbuf, List.drop_left' hlen4]
      exact List.take_left' hlen4b
    rw [htake4, hdrop4, htag, hlenfield, u32Value_u32Bytes, u32Value_u32Bytes]
    have htagfit : m.type.toTag % 2 ^ 32 = m.type.toTag := by
      cases m.type <;> rfl
    have hlenfit : m.content.length % 2 ^ 32 = m.content.length := Nat.mod_eq_of_lt hfit
    rw [htagfit, hlenfit, fromTag_toTag]
    simp only [show ¬ (maxLen < m.content.length) by omega, if_false]
    simp only [show k < 8 + m.content.length by omega, if_true]

/-- A header that declares a content length above the configured maximum decodes
to `ProtocolError`, whatever the tag and however much content follows. -/
theorem decode_oversize (maxLen t len : Nat) (cb : List Byte)
    (hfit : len < 2 ^ 32) (hover : maxLen < len) :
    decode maxLen (u32Bytes t ++ u32Bytes len ++ cb) = .ProtocolError := by
  have hlen4 : (u32Bytes t).length = 4 := rfl
  have hlen4b : (u32Bytes len).length = 4 := rfl
  have hbuf : u32Bytes t ++ u32Bytes len ++ cb = u32Bytes t ++ (u32Bytes len ++ cb) := by
    simp
  have hlen : (u32Bytes t ++ u32Bytes len ++ cb).length = 8 + cb.length := by
    simp [u32Bytes]
    omega
  unfold decode
  rw [hlen]
  simp only [show ¬ (8 + cb.length < 8) by omega, if_false]
  have htake4 : (u32Bytes t ++ u32Bytes len ++ cb).take 4 = u32Bytes t := by
    rw [hbuf]
    exact List.take_left' hlen4
  have hdrop4 : ((u32Bytes t ++ u32Bytes len ++ cb).drop 4).take 4 = u32Bytes len := by
    rw [hbuf, List.drop_left' hlen4]
    exact List.take_left' hlen4b
  rw [htake4, hdrop4, u32Value_u32Bytes, u32Value_u32Bytes]
  have hlenfit : len % 2 ^ 32 = len := Nat.mod_eq_of_lt hfit
  rw [hlenfit]
  cases h : MessageType.fromTag (t % 2 ^ 32)
  · rfl
  · simp only [show maxLen < len from hover, if_true]

/-- C1, counterexample to the claim as stated: with the configured maximum set
to 1, the valid message `{Data, [5, 6]}` (content an arbitrary byte sequence of
length 2) does not decode back from its own encoding — the decoder rejects the
declared length with `ProtocolError`, as spec sections 4.1 and 7 require. -/
theorem message_roundtrip_unconditional_false :
    decode 1 (encode ⟨.Data, [5, 6]⟩) ≠ .Decoded ⟨.Data, [5, 6]⟩ [] := by
  decide

/-- C1 (amended): for every valid message whose content length is at most the
configured maximum content length (and below `2 ^ 32`, the width of the length
field), decoding the encoded frame yields exactly the message back, with no
bytes left over. -/
theorem message_roundtrip (maxLen : Nat) (m : Message)
    (hmax : m.content.length ≤ maxLen) (hfit : m.content.length < 2 ^ 32) :
    decode maxLen (encode m) = .Decoded m [] :=
  decode_encode maxLen m hmax hfit

/-- C1, witness: the round trip evaluated at the message `{Data, [5, 6]}` with
configured maximum 16. -/
theorem message_roundtrip_witness :
    ([(5 : Byte), 6] : List Byte).length ≤ 16
    ∧ ([(5 : Byte), 6] : List Byte).length < 2 ^ 32
    ∧ decode 16 (encode ⟨.Data, [5, 6]⟩) = .Decoded ⟨.Data, [5, 6]⟩ [] :=
  ⟨by decide, by decide, message_roundtrip 16 ⟨.Data, [5, 6]⟩ (by decide) (by decide)⟩

/-- C4, counterexample to the claim as stated: for the valid message
`{Data, [5, 6]}` and the configured maximum 1, the strict prefix holding the
first 8 bytes of the frame decodes to `ProtocolError`, not `Incomplete`: the
oversize check of spec section 4.1 fires as soon as the header is complete. -/
theorem decode_partial_reads_unconditional_false :
    decode 1 ((encode ⟨.Data, [5, 6]⟩).take 8) ≠ .Incomplete := by
  decide

/-- C4 (amended): for every valid message whose content length is at most the
configured maximum (and below `2 ^ 32`), every strict prefix of the encoded
frame decodes to `Incomplete` — which is not an error — and the complete frame
decodes to exactly the message. -/
theorem decode_partial_reads (maxLen : Nat) (m : Message) (k : Nat)
    (hmax : m.content.length ≤ maxLen) (hfit : m.content.length < 2 ^ 32) :
    (k < (encode m).length → decode maxLen ((encode m).take k) = .Incomplete)
    ∧ decode maxLen (encode m) = .Decoded m [] :=
  ⟨fun hk => decode_take_incomplete maxLen m k hmax hfit hk,
   decode_encode maxLen m hmax hfit⟩

/-- C4, witness: the 5 byte strict prefix of the frame of `{Data, [5, 6]}`
decodes to `Incomplete` and the full frame decodes to the message, with
configured maximum 16. -/
theorem decode_partial_reads_witness :
    decode 16 ((encode ⟨.Data, [5, 6]⟩).take 5) = .Incomplete
    ∧ decode 16 (encode ⟨.Data, [5, 6]⟩) = .Decoded ⟨.Data, [5, 6]⟩ [] :=
  ⟨(decode_partial_reads 16 ⟨.Data, [5, 6]⟩ 5 (by decide) (by decide)).1 (by decide),
   (decode_partial_reads 16 ⟨.Data, [5, 6]⟩ 5 (by decide) (by decide)).2⟩

/-- C5: a frame whose header declares a content length above the configured
maximum decodes to `ProtocolError` — never to a message — and on a live
connection whose inbound buffer holds such a frame, one receive cycle yields no
message and tears the connection down (`isConnectedOrConnecting` becomes
false), as spec section 7 requires for fatal protocol errors. -/
theorem oversize_frame_fatal (maxLen t len : Nat) (cb : List Byte)
    (conn : Connection)
    (hfit : len < 2 ^ 32) (hover : maxLen < len)
    (hconnOver : conn.maxLen < len) (hconn : conn.connected = true)
    (hbuf : conn.recvBuf = u32Bytes t ++ u32Bytes len ++ cb) :
    decode maxLen (u32Bytes t ++ u32Bytes len ++ cb) = .ProtocolError
    ∧ (receiveMessage conn).1 = none
    ∧ isConnectedOrConnecting (receiveMessage conn).2 = false := by
  refine ⟨decode_oversize maxLen t len cb hfit hover, ?_, ?_⟩ <;>
  · unfold receiveMessage
    rw [hconn, hbuf, decode_oversize conn.maxLen t len cb hfit hconnOver]
    rfl

/-- C5, witness: a connection with configured maximum 1 whose buffer holds a
header declaring content length 2. -/
theorem oversize_frame_fatal_witness :
    decode 1 (u32Bytes 1 ++ u32Bytes 2 ++ []) = .ProtocolError
    ∧ (receiveMessage ⟨true, 1, u32Bytes 1 ++ u32Bytes 2 ++ [], []⟩).1 = none
    ∧ isConnectedOrConnecting
        (receiveMessage ⟨true, 1, u32Bytes 1 ++ u32Bytes 2 ++ [], []⟩).2 = false :=
  oversize_frame_fatal 1 1 2 [] ⟨true, 1, u32Bytes 1 ++ u32Bytes 2 ++ [], []⟩
    (by decide) (by decide) (by decide) (by decide) (by decide)

/-- C6: `disconnect` is idempotent and closes the connection; on a closed
connection every send fails and every receive returns nothing; and a transport
error during `sendMessage` (the failing write) leaves the connection closed —
`isConnectedOrConnecting` is false and subsequent receives return nothing. -/
theorem connection_closed_semantics (c : Connection) (m m2 : Message) :
    disconnect (disconnect c) = disconnect c
    ∧ isConnectedOrConnecting (disconnect c) = false
    ∧ (sendMessage (disconnect c) m2 true).1 = false
    ∧ (sendMessage (disconnect c) m2 false).1 = false
    ∧ (receiveMessage (disconnect c)).1 = none
    ∧ (sendMessage c m false).1 = false
    ∧ isConnectedOrConnecting (sendMessage c m false).2 = false
    ∧ (sendMessage (sendMessage c m false).2 m2 true).1 = false
    ∧ (receiveMessage (sendMessage c m false).2).1 = none := by
  cases c with
  | mk conn maxLen recvBuf sentBytes =>
    cases conn <;>
      simp [disconnect, isConnectedOrConnecting, sendMessage, receiveMessage]

theorem hostCount_mono {N : Nat} (s s2 : SessionState N)
    (h : ∀ j, s2 j = .Host → s j = .Host) : hostCount s2 ≤ hostCount s := by
  apply Finset.card_le_card
  intro j hj
  simp only [Finset.mem_filter, Finset.mem_univ, true_and] at hj ⊢
  exact h j hj

theorem hostCount_init (N : Nat) : hostCount (initSession N) = 0 := by
  simp [hostCount, initSession]

theorem hostCount_requestGrant {N : Nat} (i : Fin N) (s : SessionState N)
    (g : s i = .ClientWithoutHost ∨ s i = .ClientWithHost) :
    hostCount (requestGrant i s) = 1 := by
  unfold hostCount requestGrant
  rw [if_pos g]
  have hset :
      (Finset.univ.filter fun j =>
        (if j = i then Status.Host
         else if s j = .ClientWithoutHost ∨ s j = .ClientWithHost ∨ s j = .Host then
           Status.ClientWithHost
         else s j) = Status.Host) = {i} := by
    ext j
    simp only [Finset.mem_filter, Finset.mem_univ, true_and, Finset.mem_singleton]
    by_cases hj : j = i
    · simp [hj]
    · simp only [hj, if_false, iff_false]
      split_ifs with h2
      · simp
      · intro hH
        exact h2 (Or.inr (Or.inr hH))
  rw [hset, Finset.card_singleton]

theorem hostCount_step {N : Nat} {s s2 : SessionState N}
    (h : SessionStep N s s2) (hs : hostCount s ≤ 1) : hostCount s2 ≤ 1 := by
  cases h with
  | connect i s =>
    refine le_trans (hostCount_mono s _ ?_) hs
    intro j hj
    simp only [connectNode, ite_apply] at hj
    split_ifs at hj <;> simp_all
  | auth i b s =>
    refine le_trans (hostCount_mono s _ ?_) hs
    intro j hj
    simp only [authNode, ite_apply] at hj
    split_ifs at hj <;> simp_all
  | request i s =>
    by_cases g : s i = .ClientWithoutHost ∨ s i = .ClientWithHost
    · rw [hostCount_requestGrant i s g]
    · unfold requestGrant
      rw [if_neg g]
      exact hs
  | resign i s =>
    refine le_trans (hostCount_mono s _ ?_) hs
    intro j hj
    simp only [resignHostship, ite_apply] at hj
    split_ifs at hj <;> simp_all
  | drop i s =>
    refine le_trans (hostCount_mono s _ ?_) hs
    intro j hj
    simp only [dropNode] at hj
    split_ifs at hj
    simp_all

theorem reachable_hostCount {N : Nat} {s : SessionState N}
    (h : SessionReachable N s) : hostCount s ≤ 1 := by
  unfold SessionReachable at h
  induction h with
  | refl => rw [hostCount_init]; omega
  | tail _ hstep ih => exact hostCount_step hstep ih

theorem requestGrant_of_allWait {N : Nat} (i : Fin N) (s : SessionState N)
    (h : ∀ j, s j = .ClientWithoutHost) : requestGrant i s = postState i := by
  funext j
  unfold requestGrant postState
  rw [if_pos (Or.inl (h i))]
  by_cases hj : j = i
  · simp [hj]
  · simp [hj, h j]

theorem requestGrant_postState {N : Nat} (i k : Fin N) (hik : i ≠ k) :
    requestGrant i (postState k) = postState i := by
  have hi : postState k i = .ClientWithHost := by simp [postState, hik]
  funext j
  unfold requestGrant
  rw [if_pos (Or.inr hi)]
  by_cases hj : j = i
  · simp [hj, postState]
  · by_cases hjk : j = k <;> simp [postState, hj, hjk]

theorem foldl_requestGrant {N : Nat} (rest : List (Fin N)) :
    ∀ (k : Fin N), (∀ x ∈ rest, x ≠ k) → rest.Nodup →
      rest.foldl (fun s j => requestGrant j s) (postState k)
        = postState (rest.getLastD k) := by
  induction rest with
  | nil => intro k _ _; rfl
  | cons i rest2 ih =>
    intro k hne hnd
    simp only [List.foldl_cons]
    rw [requestGrant_postState i k (hne i (by simp)), List.getLastD_cons]
    have hnd2 := List.nodup_cons.mp hnd
    exact ih i (fun x hx hxeq => hnd2.1 (hxeq ▸ hx)) hnd2.2

/-- C2: in every reachable state of a session of `N` nodes — arbitration
centralized through a rendezvous that never grants two concurrent requests —
at most one node has status `Host`; and when the clients of an all-client
session each call `requestHostship()` concurrently (the rendezvous serializing
the calls in an arbitrary order), exactly one node ends in `Host` and every
other node ends in `ClientWithHost`. -/
theorem single_host_invariant (N : Nat) :
    (∀ s : SessionState N, SessionReachable N s → hostCount s ≤ 1)
    ∧ (∀ order : List (Fin N), order.Nodup → order ≠ [] →
        (∀ i : Fin N, i ∈ order) →
        ∃ i : Fin N,
          order.foldl (fun s j => requestGrant j s) (fun _ => .ClientWithoutHost) i
            = .Host
          ∧ ∀ j, j ≠ i →
              order.foldl (fun s j2 => requestGrant j2 s) (fun _ => .ClientWithoutHost) j
                = .ClientWithHost) := by
  constructor
  · intro s h
    exact reachable_hostCount h
  · intro order hnd hne _
    obtain ⟨i0, rest, rfl⟩ := List.exists_cons_of_ne_nil hne
    have hnd2 := List.nodup_cons.mp hnd
    have hfold :
        (i0 :: rest).foldl (fun s j => requestGrant j s) (fun _ => .ClientWithoutHost)
          = postState (rest.getLastD i0) := by
      simp only [List.foldl_cons]
      rw [requestGrant_of_allWait i0 _ (fun _ => rfl)]
      exact foldl_requestGrant rest i0 (fun x hx hxeq => hnd2.1 (hxeq ▸ hx)) hnd2.2
    refine ⟨rest.getLastD i0, ?_, ?_⟩
    · rw [hfold]
      unfold postState
      rw [if_pos rfl]
    · intro j hj
      rw [hfold]
      unfold postState
      rw [if_neg hj]

/-- C2, witness: a session of two clients, both requests serialized in the
order `[0, 1]`; the invariant part applied to the (trivially reachable) fresh
session. -/
theorem single_host_invariant_witness :
    hostCount (initSession 2) ≤ 1
    ∧ ∃ i : Fin 2,
        ([0, 1] : List (Fin 2)).foldl (fun s j => requestGrant j s)
            (fun _ => .ClientWithoutHost) i = .Host
        ∧ ∀ j, j ≠ i →
            ([0, 1] : List (Fin 2)).foldl (fun s j2 => requestGrant j2 s)
                (fun _ => .ClientWithoutHost) j = .ClientWithHost :=
  ⟨(single_host_invariant 2).1 (initSession 2) Relation.ReflTransGen.refl,
   (single_host_invariant 2).2 [0, 1] (by decide) (by decide) (by decide)⟩

theorem fromTag_eq_none {t : Nat} (h : ¬ t < 5) : MessageType.fromTag t = none := by
  unfold MessageType.fromTag
  have h0 : t ≠ 0 := by omega
  have h1 : t ≠ 1 := by omega
  have h2 : t ≠ 2 := by omega
  have h3 : t ≠ 3 := by omega
  have h4 : t ≠ 4 := by omega
  simp [h0, h1, h2, h3, h4]

theorem decode_badtag (maxLen t len : Nat) (cb : List Byte)
    (ht : t < 2 ^ 32) (hunknown : ¬ t < 5) :
    decode maxLen (u32Bytes t ++ u32Bytes len ++ cb) = .ProtocolError := by
  have hlen4 : (u32Bytes t).length = 4 := rfl
  have hlen4b : (u32Bytes len).length = 4 := rfl
  have hbuf : u32Bytes t ++ u32Bytes len ++ cb = u32Bytes t ++ (u32Bytes len ++ cb) := by
    simp
  have hlen : (u32Bytes t ++ u32Bytes len ++ cb).length = 8 + cb.length := by
    simp [u32Bytes]
    omega
  unfold decode
  rw [hlen]
  simp only [show ¬ (8 + cb.length < 8) by omega, if_false]
  have htake4 : (u32Bytes t ++ u32Bytes len ++ cb).take 4 = u32Bytes t := by
    rw [hbuf]
    exact List.take_left' hlen4
  rw [htake4, u32Value_u32Bytes, Nat.mod_eq_of_lt ht, fromTag_eq_none hunknown]

/-- C3: the protocol tag space is exactly the five values 0 to 4 —
`fromTag` maps 0 to `Authentication`, 1 to `Data`, 2 to `ConnectionStatus`,
3 to `HostshipRequest`, 4 to `HostshipResignation`, accepts a tag if and only
if it is below `nConnectionsTag = 5` (the count sentinel enumerator), inverts
`toTag` — and a frame carrying any other tag is a protocol violation: the
decoder rejects it with `ProtocolError`. -/
theorem message_tag_space (maxLen t len : Nat) (cb : List Byte)
    (ht : t < 2 ^ 32) (hunknown : ¬ t < nConnectionsTag) :
    MessageType.fromTag 0 = some .Authentication
    ∧ MessageType.fromTag 1 = some .Data
    ∧ MessageType.fromTag 2 = some .ConnectionStatus
    ∧ MessageType.fromTag 3 = some .HostshipRequest
    ∧ MessageType.fromTag 4 = some .HostshipResignation
    ∧ (∀ u : Nat, (MessageType.fromTag u).isSome ↔ u < nConnectionsTag)
    ∧ (∀ mt : MessageType, MessageType.fromTag mt.toTag = some mt)
    ∧ decode maxLen (u32Bytes t ++ u32Bytes len ++ cb) = .ProtocolError := by
  refine ⟨rfl, rfl, rfl, rfl, rfl, ?_, fromTag_toTag, ?_⟩
  · intro u
    unfold MessageType.fromTag nConnectionsTag
    split_ifs <;> simp <;> omega
  · exact decode_badtag maxLen t len cb ht hunknown

/-- C3, witness: the unknown tag 7 (and in particular the sentinel value
`NConnections = 5` is not needed to reject it: any tag at or above 5 is
refused), on a frame declaring content length 0. -/
theorem message_tag_space_witness :
    MessageType.fromTag 7 = none
    ∧ decode 16 (u32Bytes 7 ++ u32Bytes 0 ++ []) = .ProtocolError :=
  ⟨by decide,
   (message_tag_space 16 7 0 [] (by decide) (by decide)).2.2.2.2.2.2.2⟩

/-- C7: from `Disconnected`, only a successful `Authentication` exchange
transitions the state machine to `ClientWithoutHost` or `ClientWithHost`;
receipt of any other message type (including `Data`), or of a failed
`Authentication`, leaves the state `Disconnected`. -/
theorem disconnected_only_auth (m : Message) :
    (m.type ≠ .Authentication → handleMessage .Disconnected m = .Disconnected)
    ∧ (handleMessage .Disconnected m ≠ .Disconnected →
        m.type = .Authentication ∧ authSuccess m.content = true)
    ∧ (m.type = .Authentication → authSuccess m.content = true →
        handleMessage .Disconnected m = .ClientWithoutHost
        ∨ handleMessage .Disconnected m = .ClientWithHost) := by
  obtain ⟨t, cb⟩ := m
  cases t with
  | Authentication =>
    cases h : authSuccess cb <;> cases h2 : hostPresent cb <;>
      simp [handleMessage, h, h2]
  | Data => simp [handleMessage]
  | ConnectionStatus => simp [handleMessage]
  | HostshipRequest => simp [handleMessage]
  | HostshipResignation => simp [handleMessage]

/-- C7, witness: the successful host-less `Authentication` response
`{Authentication, [1]}` leaves `Disconnected` for a client state, evaluated
through the claim theorem. -/
theorem disconnected_only_auth_witness :
    handleMessage .Disconnected ⟨.Authentication, [1]⟩ = .ClientWithoutHost
    ∨ handleMessage .Disconnected ⟨.Authentication, [1]⟩ = .ClientWithHost :=
  (disconnected_only_auth ⟨.Authentication, [1]⟩).2.2 rfl (by decide)

/-- C8: a default constructed `Message` (and likewise `DataMessage`) has an
empty content but an indeterminate type field: the constructor fixes no tag
value — the field holds whatever `uint32_t` bit pattern `t` was in the storage
— and in particular a value outside the five protocol tags can occur, as
witnessed by bit pattern 7, which `fromTag` recognizes as none of the five. -/
theorem default_message_indeterminate :
    (∀ t : Nat, (defaultMessage t).content = [])
    ∧ (∀ t : Nat, (defaultDataMessage t).content = [])
    ∧ (∀ t : Nat, (defaultMessage t).typeTag = t % 2 ^ 32)
    ∧ (∃ t : Nat, MessageType.fromTag (defaultMessage t).typeTag = none) :=
  ⟨fun _ => rfl, fun _ => rfl, fun _ => rfl, ⟨7, by decide⟩⟩

/-- C9: both change handlers registered by the `RenderableEarthMoonLine`
constructor are attached to `_lineWidth` and none to `_currentLineColor`;
consequently setting the `LineColor` property alone stores the value but
leaves the rendered `_lineColor` (and the line set) unchanged, while setting
the `LineWidth` property rebuilds the line set and copies `_currentLineColor`
into `_lineColor`. -/
theorem line_color_handler_wiring (W C : Type) (s : EMLState W C) (w : W) (c : C) :
    emlHandlersFor .lineColor = []
    ∧ emlHandlersFor .lineWidth = [.drawnTank, .copyCurrentLineColor]
    ∧ (setLineColorProp c s)._currentLineColor = c
    ∧ (setLineColorProp c s)._lineColor = s._lineColor
    ∧ (setLineColorProp c s).tankBuiltWidth = s.tankBuiltWidth
    ∧ (setLineWidthProp w s)._lineColor = s._currentLineColor
    ∧ (setLineWidthProp w s).tankBuiltWidth = some w :=
  ⟨rfl, rfl, rfl, rfl, rfl, rfl, rfl⟩

theorem tdLt_irrefl (a : TextureDimensions) : tdLt a a = false := by
  simp [tdLt]

theorem tdEquiv_iff (a b : TextureDimensions) : tdEquiv a b = true ↔ a = b := by
  constructor
  · intro h
    simp only [tdEquiv, Bool.and_eq_true, Bool.not_eq_true'] at h
    obtain ⟨h1, h2⟩ := h
    obtain ⟨aw, ah, ad, af⟩ := a
    obtain ⟨bw, bh, bd, bf⟩ := b
    simp only [tdLt] at h1 h2
    simp only [TextureDimensions.mk.injEq]
    by_cases hw : aw < bw
    · rw [if_pos hw] at h1
      exact Bool.noConfusion h1
    · rw [if_neg hw] at h1
      by_cases hw2 : bw < aw
      · rw [if_pos hw2] at h2
        exact Bool.noConfusion h2
      · rw [if_neg hw2] at h2
        have hwe : aw = bw := by omega
        subst hwe
        rw [if_pos rfl] at h1 h2
        by_cases hh : ah < bh
        · rw [if_pos hh] at h1
          exact Bool.noConfusion h1
        · rw [if_neg hh] at h1
          by_cases hh2 : bh < ah
          · rw [if_pos hh2] at h2
            exact Bool.noConfusion h2
          · rw [if_neg hh2] at h2
            have hhe : ah = bh := by omega
            subst hhe
            rw [if_pos rfl] at h1 h2
            by_cases hd : ad < bd
            · rw [if_pos hd] at h1
              exact Bool.noConfusion h1
            · rw [if_neg hd] at h1
              by_cases hd2 : bd < ad
              · rw [if_pos hd2] at h2
                exact Bool.noConfusion h2
              · rw [if_neg hd2] at h2
                have hde : ad = bd := by omega
                subst hde
                rw [if_pos rfl] at h1 h2
                by_cases hf : af < bf
                · rw [if_pos hf] at h1
                  exact Bool.noConfusion h1
                · by_cases hf2 : bf < af
                  · rw [if_pos hf2] at h2
                    exact Bool.noConfusion h2
                  · exact ⟨rfl, rfl, rfl, by omega⟩
  · rintro rfl
    simp [tdEquiv, tdLt_irrefl]

theorem pushIndex_flatten (maxDim i : Nat) :
    ∀ gs, (pushIndex maxDim i gs).flatten = gs.flatten ++ [i]
  | [] => by simp [pushIndex]
  | [g] => by
    simp only [pushIndex]
    split_ifs <;> simp
  | g :: g2 :: gs => by
    simp only [pushIndex, List.flatten_cons]
    rw [pushIndex_flatten maxDim i (g2 :: gs)]
    simp [List.flatten_cons]

theorem pushIndex_mem (maxDim i : Nat) :
    ∀ gs g, g ∈ pushIndex maxDim i gs →
      g = [i] ∨ g ∈ gs
      ∨ ∃ g0, g0 ∈ gs ∧ g = g0 ++ [i]
          ∧ ¬(0 < g0.length ∧ 4096 < (g0.length + 1) * maxDim)
  | [], g, h => by
    simp [pushIndex] at h
    exact Or.inl h
  | [g1], g, h => by
    simp only [pushIndex] at h
    split_ifs at h with hc
    · rcases List.mem_cons.mp h with h1 | h1
      · exact Or.inr (Or.inl (by simp [h1]))
      · simp at h1
        exact Or.inl h1
    · simp at h
      exact Or.inr (Or.inr ⟨g1, by simp, h, hc⟩)
  | g1 :: g2 :: gs, g, h => by
    rcases List.mem_cons.mp h with h1 | h1
    · exact Or.inr (Or.inl (by simp [h1]))
    · rcases pushIndex_mem maxDim i (g2 :: gs) g h1 with h2 | h2 | ⟨g0, hg0, hge, hgc⟩
      · exact Or.inl h2
      · exact Or.inr (Or.inl (List.mem_cons_of_mem _ h2))
      · exact Or.inr (Or.inr ⟨g0, List.mem_cons_of_mem _ hg0, hge, hgc⟩)

theorem flattenGroups_cons (e : TextureDimensions × List (List Nat)) (es : GroupMap) :
    flattenGroups (e :: es) = e.2.flatten ++ flattenGroups es := by
  simp [flattenGroups]

theorem pushIndex_empty (d : TextureDimensions) (i : Nat) :
    pushIndex (maxDimension d) i [[]] = [[i]] := rfl

theorem insertTexture_count (d : TextureDimensions) (i : Nat) :
    ∀ (m : GroupMap) (j : Nat),
      (flattenGroups (insertTexture d i m)).count j
        = (flattenGroups m).count j + (if j = i then 1 else 0)
  | [], j => by
    simp only [insertTexture, pushIndex_empty]
    simp [flattenGroups, List.count_cons, List.count_nil]
    by_cases hj : j = i
    · simp [hj]
    · simp [hj]
      omega
  | e :: es, j => by
    by_cases hc : tdEquiv e.1 d = true
    · unfold insertTexture
      rw [if_pos hc, flattenGroups_cons, flattenGroups_cons, pushIndex_flatten]
      simp only [List.count_append]
      have : ([i] : List Nat).count j = if j = i then 1 else 0 := by
        by_cases hj : j = i <;> simp [hj]
      omega
    · unfold insertTexture
      rw [if_neg hc, flattenGroups_cons, flattenGroups_cons]
      simp only [List.count_append]
      rw [insertTexture_count d i es j]
      omega

theorem insertTexture_entry_mem (d : TextureDimensions) (i : Nat) :
    ∀ (m : GroupMap) (e2 : TextureDimensions × List (List Nat)),
      e2 ∈ insertTexture d i m →
      e2 ∈ m
      ∨ (∃ f, f ∈ m ∧ tdEquiv f.1 d = true
          ∧ e2 = (f.1, pushIndex (maxDimension d) i f.2))
      ∨ e2 = (d, [[i]])
  | [], e2, h => by
    simp only [insertTexture, pushIndex_empty] at h
    simp at h
    exact Or.inr (Or.inr h)
  | f :: fs, e2, h => by
    by_cases hc : tdEquiv f.1 d = true
    · unfold insertTexture at h
      rw [if_pos hc] at h
      rcases List.mem_cons.mp h with h1 | h1
      · exact Or.inr (Or.inl ⟨f, by simp, hc, h1⟩)
      · exact Or.inl (List.mem_cons_of_mem _ h1)
    · unfold insertTexture at h
      rw [if_neg hc] at h
      rcases List.mem_cons.mp h with h1 | h1
      · exact Or.inl (by simp [h1])
      · rcases insertTexture_entry_mem d i fs e2 h1 with h2 | ⟨f2, hf2, hfe, hfp⟩ | h2
        · exact Or.inl (List.mem_cons_of_mem _ h2)
        · exact Or.inr (Or.inl ⟨f2, List.mem_cons_of_mem _ hf2, hfe, hfp⟩)
        · exact Or.inr (Or.inr h2)

theorem insertTexture_groups_ok (ts : List TextureDimensions) (d : TextureDimensions)
    (i : Nat) (hd : ts.get? i = some d) (m : GroupMap) (H : GroupsOk ts m) :
    GroupsOk ts (insertTexture d i m) := by
  intro e he g hg
  rcases insertTexture_entry_mem d i m e he with hm | ⟨f, hf, hfe, rfl⟩ | rfl
  · exact H e hm g hg
  · have hf1 : f.1 = d := (tdEquiv_iff f.1 d).mp hfe
    rcases pushIndex_mem (maxDimension d) i f.2 g hg
      with rfl | hgin | ⟨g0, hg0, rfl, hguard⟩
    · refine ⟨?_, ?_⟩
      · intro j hj
        simp only [List.mem_singleton] at hj
        subst hj
        rw [hd, hf1]
      · intro h2
        simp at h2
    · exact ⟨fun j hj => (H f hf g hgin).1 j hj, (H f hf g hgin).2⟩
    · refine ⟨?_, ?_⟩
      · intro j hj
        rcases List.mem_append.mp hj with hj0 | hj1
        · exact (H f hf g0 hg0).1 j hj0
        · simp only [List.mem_singleton] at hj1
          subst hj1
          rw [hd, hf1]
      · intro h2
        have hlen : 0 < g0.length := by
          simp only [List.length_append, List.length_singleton] at h2
          omega
        have hbound : ¬ 4096 < (g0.length + 1) * maxDimension d :=
          fun hlt => hguard ⟨hlen, hlt⟩
        simp only [List.length_append, List.length_singleton, hf1]
        omega
  · simp only [List.mem_singleton] at hg
    subst hg
    refine ⟨?_, ?_⟩
    · intro j hj
      simp only [List.mem_singleton] at hj
      subst hj
      exact hd
    · intro h2
      simp at h2

theorem groupTexturesAux_ok (ts : List TextureDimensions) :
    ∀ (ds : List TextureDimensions) (k : Nat) (m : GroupMap),
      ds = ts.drop k →
      (∀ j, (flattenGroups m).count j = if j < k then 1 else 0) →
      GroupsOk ts m →
      (∀ j, (flattenGroups (groupTexturesAux k ds m)).count j
          = if j < k + ds.length then 1 else 0)
      ∧ GroupsOk ts (groupTexturesAux k ds m) := by
  intro ds
  induction ds with
  | nil =>
    intro k m _ hcount hok
    exact ⟨by simpa using hcount, hok⟩
  | cons d ds2 ih =>
    intro k m hdrop hcount hok
    have hget : ts.get? k = some d := by
      have h0 : (ts.drop k).get? 0 = some d := by
        rw [← hdrop]
        rfl
      rw [List.get?_drop] at h0
      simpa using h0
    have hdrop2 : ds2 = ts.drop (k + 1) := by
      have htail : (ts.drop k).drop 1 = ts.drop (k + 1) := by
        rw [List.drop_drop]
      rw [← htail, ← hdrop]
      rfl
    have hcount2 : ∀ j,
        (flattenGroups (insertTexture d k m)).count j = if j < k + 1 then 1 else 0 := by
      intro j
      rw [insertTexture_count d k m j, hcount j]
      split_ifs <;> omega
    have hok2 := insertTexture_groups_ok ts d k hget m hok
    have hrec := ih (k + 1) (insertTexture d k m) hdrop2 hcount2 hok2
    simp only [groupTexturesAux, List.length_cons]
    refine ⟨fun j => ?_, hrec.2⟩
    rw [hrec.1 j]
    have heq : k + 1 + ds2.length = k + (ds2.length + 1) := by omega
    rw [heq]

/-- C10: the texture grouping pass of `RenderableModelNew::loadModel`
partitions the loaded texture indices `0 .. n-1`: every such index is recorded
exactly once across all groups of the map (and no other index appears); all
indices in a group have exactly the dimensions of the entry key (identical
width, height, depth and format); and every group holding two or more textures
satisfies `size * max(width, height) ≤ 4096` — a group may exceed the limit
only when it holds a single texture. -/
theorem texture_grouping_partition (ts : List TextureDimensions) :
    (∀ j : Nat, (flattenGroups (groupTextures ts)).count j
        = if j < ts.length then 1 else 0)
    ∧ (∀ e ∈ groupTextures ts, ∀ g ∈ e.2,
        (∀ j ∈ g, ts.get? j = some e.1)
        ∧ (2 ≤ g.length → g.length * maxDimension e.1 ≤ 4096)) := by
  have h := groupTexturesAux_ok ts ts 0 []
    (by simp)
    (by intro j; simp [flattenGroups])
    (by intro e he; simp at he)
  unfold groupTextures
  have h2 := h.2
  unfold GroupsOk at h2
  exact ⟨by simpa using h.1, h2⟩

/-- C10, witness: two 16 by 16 textures of the same dimensions are grouped into
the single group `[0, 1]` under the key `(16, 16, 1, 0)`; the claim theorem
evaluated there. -/
theorem texture_grouping_partition_witness :
    ((flattenGroups (groupTextures [⟨16, 16, 1, 0⟩, ⟨16, 16, 1, 0⟩])).count 0
      = if 0 < ([⟨16, 16, 1, 0⟩, ⟨16, 16, 1, 0⟩] : List TextureDimensions).length
        then 1 else 0)
    ∧ ([⟨16, 16, 1, 0⟩, ⟨16, 16, 1, 0⟩] : List TextureDimensions).get? 1
        = some ⟨16, 16, 1, 0⟩
    ∧ ([0, 1] : List Nat).length * maxDimension ⟨16, 16, 1, 0⟩ ≤ 4096 :=
  ⟨(texture_grouping_partition [⟨16, 16, 1, 0⟩, ⟨16, 16, 1, 0⟩]).1 0,
   ((texture_grouping_partition [⟨16, 16, 1, 0⟩, ⟨16, 16, 1, 0⟩]).2
      (⟨16, 16, 1, 0⟩, [[0, 1]]) (by decide) [0, 1] (by decide)).1 1 (by decide),
   ((texture_grouping_partition [⟨16, 16, 1, 0⟩, ⟨16, 16, 1, 0⟩]).2
      (⟨16, 16, 1, 0⟩, [[0, 1]]) (by decide) [0, 1] (by decide)).2 (by decide)⟩

end OpenSpace
